import Mathlib

/-!
Verification of the task-viewer core (`src/main.rs`).

Shallow embedding of the stateful selection and tab-navigation model of the
terminal task viewer. The Rust source keeps a `StatefulList<T>` (a
`ratatui::ListState`, whose only relevant content is `selected: Option<usize>`,
together with `items: Vec<T>`), an `App` with three tabs, and an event loop
(`run_app`) dispatching on key codes.

Modelling conventions:
- `usize` becomes `Nat`. `Vec<T>` becomes `List T`. `Option<usize>` becomes
  `Option Nat`.
- `self.items.len() - 1` is a `usize` subtraction; it underflows when
  `items` is empty, which is a panic (a failure) in Rust debug builds. All
  operations that can panic — this subtraction and the `Vec` indexing
  `app.task_lists[app.active_tab]` / `app.show_details[app.active_tab]` in
  `run_app` — are therefore embedded as `Option`-returning functions, with
  `none` for the panic.
- One iteration of the `run_app` event loop after a key event is `App.step`;
  `StepResult.terminate` models `return Ok(())` on the key `'q'`.
-/

/-- Embeds Rust `StatefulList<T>`: the `ListState` field is represented by the
`Option<usize>` it carries (`state.selected()` reads it, `state.select` writes
it), `items` is the item vector. -/
structure StatefulList (α : Type) where
  selected : Option Nat
  items : List α
  deriving DecidableEq

namespace StatefulList

/-- Embeds `StatefulList::new`: given items, `ListState::default()` has
`selected = None`. -/
def new {α : Type} (items : List α) : StatefulList α :=
  { selected := none, items := items }

/-- Embeds `StatefulList::next`. The `usize` subtraction `self.items.len() - 1`
in the `Some` branch underflows (panics) when `items` is empty, hence the
`Option` result with `none` for that case. -/
def next {α : Type} (l : StatefulList α) : Option (StatefulList α) :=
  match l.selected with
  | some i =>
      if l.items.length = 0 then
        none
      else
        some { l with selected := some (if i ≥ l.items.length - 1 then 0 else i + 1) }
  | none => some { l with selected := some 0 }

/-- Embeds `StatefulList::previous`. The subtraction `self.items.len() - 1`
in the `i == 0` branch underflows (panics) when `items` is empty. -/
def previous {α : Type} (l : StatefulList α) : Option (StatefulList α) :=
  match l.selected with
  | some i =>
      if i = 0 then
        if l.items.length = 0 then
          none
        else
          some { l with selected := some (l.items.length - 1) }
      else
        some { l with selected := some (i - 1) }
  | none => some { l with selected := some 0 }

end StatefulList

/-- Embeds the Rust `App` struct. -/
structure App where
  tabs : List String
  active_tab : Nat
  task_lists : List (StatefulList String)
  show_details : List Bool
  deriving DecidableEq

/-- Embeds `App::new`. -/
def App.new : App :=
  { tabs := ["Work", "Personal", "Hobbies"]
    active_tab := 0
    task_lists :=
      [StatefulList.new ["Finish project report", "Email manager"],
       StatefulList.new ["Buy groceries", "Call family"],
       StatefulList.new ["Practice guitar", "Read a book"]]
    show_details := [false, false, false] }

/-- The key codes the `run_app` match distinguishes: `Char(c)`, `Enter`,
`Down`, `Up`; `other` stands for every remaining `KeyCode` variant, all of
which fall into the `_ => {}` arm. -/
inductive KeyCode where
  | char (c : Char)
  | enter
  | down
  | up
  | other
  deriving DecidableEq

/-- Result of one iteration of the event loop body: `terminate` models
`return Ok(())`, `cont a` the loop continuing with state `a`. -/
inductive StepResult where
  | terminate
  | cont (a : App)
  deriving DecidableEq

/-- Embeds one dispatch of the key handler in `run_app`. The indexings
`app.task_lists[app.active_tab]` and `app.show_details[app.active_tab]` panic
when `active_tab` is out of range, hence the `Option` result. The Rust match
arms `Char('q') | Char('1') | Char('2') | Char('3')` are equality tests on the
character. -/
def App.step (a : App) (k : KeyCode) : Option StepResult :=
  match k with
  | .char c =>
      if c = 'q' then some .terminate
      else if c = '1' then some (.cont { a with active_tab := 0 })
      else if c = '2' then some (.cont { a with active_tab := 1 })
      else if c = '3' then some (.cont { a with active_tab := 2 })
      else some (.cont a)
  | .enter =>
      match a.show_details[a.active_tab]? with
      | some b => some (.cont { a with show_details := a.show_details.set a.active_tab (!b) })
      | none => none
  | .down =>
      match a.task_lists[a.active_tab]? with
      | some l =>
          (l.next).map fun l2 =>
            .cont { a with task_lists := a.task_lists.set a.active_tab l2 }
      | none => none
  | .up =>
      match a.task_lists[a.active_tab]? with
      | some l =>
          (l.previous).map fun l2 =>
            .cont { a with task_lists := a.task_lists.set a.active_tab l2 }
      | none => none
  | .other => some (.cont a)

/-- Runs the event loop body over a list of key events, `none` when some step
panics or the loop terminates before consuming every event. -/
def App.stepN (a : App) : List KeyCode → Option App
  | [] => some a
  | k :: ks =>
      match App.step a k with
      | some (StepResult.cont a2) => App.stepN a2 ks
      | _ => none

/-- The selection of the active tab, `none` when `active_tab` is out of
range. -/
def App.activeSelected (a : App) : Option (Option Nat) :=
  (a.task_lists[a.active_tab]?).map StatefulList.selected

/-- C1: on a non-empty list with `selected = some i`, `0 ≤ i < len`, `next`
advances the selection to `some ((i + 1) % len)`; on `selected = none` it
selects `some 0`; in both cases `items` is unchanged. -/
theorem next_mod_spec {α : Type} (l : StatefulList α) :
    (∀ i, l.items ≠ [] → l.selected = some i → i < l.items.length →
      l.next = some { selected := some ((i + 1) % l.items.length), items := l.items }) ∧
    (l.selected = none → l.next = some { selected := some 0, items := l.items }) := by
  constructor
  · intro i hne hsel hi
    have hlen : 0 < l.items.length := List.length_pos.mpr hne
    simp only [StatefulList.next, hsel]
    rw [if_neg (by omega : ¬ l.items.length = 0)]
    have hsel2 : (if i ≥ l.items.length - 1 then 0 else i + 1)
        = (i + 1) % l.items.length := by
      split
      · have h1 : i + 1 = l.items.length := by omega
        rw [h1, Nat.mod_self]
      · rw [Nat.mod_eq_of_lt (by omega)]
    rw [hsel2]
  · intro hsel
    simp only [StatefulList.next, hsel]

/-- Witness for C1, at the list `⟨some 1, [10, 20]⟩`: wrap-around to
`some ((1 + 1) % 2) = some 0`. -/
theorem next_mod_spec_witness :
    (StatefulList.next { selected := some 1, items := [10, 20] } : Option (StatefulList Nat))
      = some { selected := some ((1 + 1) % 2), items := [10, 20] } :=
  (next_mod_spec { selected := some 1, items := [10, 20] }).1 1 (by decide) rfl (by decide)

/-- C2: on a non-empty list with `selected = some i`, `0 ≤ i < len`,
`previous` moves the selection to `some ((i - 1 + len) % len)` (written
`(i + len - 1) % len` so the subtraction does not truncate at `i = 0`); on
`selected = none` it selects `some 0`; in both cases `items` is unchanged. -/
theorem previous_mod_spec {α : Type} (l : StatefulList α) :
    (∀ i, l.items ≠ [] → l.selected = some i → i < l.items.length →
      l.previous = some { selected := some ((i + l.items.length - 1) % l.items.length),
                          items := l.items }) ∧
    (l.selected = none → l.previous = some { selected := some 0, items := l.items }) := by
  constructor
  · intro i hne hsel hi
    have hlen : 0 < l.items.length := List.length_pos.mpr hne
    simp only [StatefulList.previous, hsel]
    by_cases h0 : i = 0
    · rw [if_pos h0, if_neg (by omega : ¬ l.items.length = 0), h0]
      rw [Nat.mod_eq_of_lt (by omega), Nat.zero_add]
    · rw [if_neg h0]
      have h1 : i + l.items.length - 1 = (i - 1) + l.items.length := by omega
      rw [h1, Nat.add_mod_right, Nat.mod_eq_of_lt (by omega)]
  · intro hsel
    simp only [StatefulList.previous, hsel]

/-- Witness for C2, at the list `⟨some 0, [10, 20]⟩`: wrap-around to
`some ((0 + 2 - 1) % 2) = some 1`. -/
theorem previous_mod_spec_witness :
    (StatefulList.previous { selected := some 0, items := [10, 20] } : Option (StatefulList Nat))
      = some { selected := some ((0 + 2 - 1) % 2), items := [10, 20] } :=
  (previous_mod_spec { selected := some 0, items := [10, 20] }).1 0 (by decide) rfl (by decide)

/-- C6: from the freshly constructed workspace (3 tabs, tab 0 holding the two
tasks "Finish project report" and "Email manager", `active_tab = 0`,
`selected = None`), applying Navigate(Next) (key Down) three times yields
`selected = Some 0`, then `Some 1`, then `Some 0` (wrap-around). -/
theorem new_three_next_wraps :
    App.new.tabs.length = 3 ∧ App.new.active_tab = 0 ∧
    (App.new.task_lists[0]?).map StatefulList.items
      = some ["Finish project report", "Email manager"] ∧
    App.new.activeSelected = some none ∧
    (App.stepN App.new [.down]).bind App.activeSelected = some (some 0) ∧
    (App.stepN App.new [.down, .down]).bind App.activeSelected = some (some 1) ∧
    (App.stepN App.new [.down, .down, .down]).bind App.activeSelected = some (some 0) :=
  ⟨rfl, rfl, rfl, rfl, rfl, rfl, rfl⟩

/-- C10: on a `StatefulList` built from the empty item sequence (so
`selected = none`), one call to `next` or to `previous` does not fail and sets
`selected` to `some 0`, even though there is no item at index 0 — the
empty-implies-`None` invariant does not survive navigation on an empty
list. -/
theorem next_previous_on_empty :
    (StatefulList.new ([] : List Nat)).next
      = some { selected := some 0, items := [] } ∧
    (StatefulList.new ([] : List Nat)).previous
      = some { selected := some 0, items := [] } :=
  ⟨rfl, rfl⟩

/-- Helper: the keys `'1'`/`'2'`/`'3'` each set `active_tab` to a fixed valid
index and change nothing else. -/
theorem step_select_char (c : Char) (hc : c = '1' ∨ c = '2' ∨ c = '3') :
    ∃ t, t < 3 ∧ ∀ a : App, App.step a (.char c) = some (.cont { a with active_tab := t }) := by
  rcases hc with rfl | rfl | rfl
  · exact ⟨0, by omega, fun a => rfl⟩
  · exact ⟨1, by omega, fun a => rfl⟩
  · exact ⟨2, by omega, fun a => rfl⟩

/-- C3: switching the active tab (keys `'1'`/`'2'`/`'3'`) changes only
`active_tab` — the per-tab selections (`task_lists`, which also hold each
tab's `selected`) and `show_details` are untouched, as the record updates
show; and the round trip select tab A, navigate, select tab B, select tab A
again leaves every tab's selection state exactly as it was right after the
navigation. -/
theorem select_tab_frame_roundtrip :
    (∀ a : App,
      App.step a (.char '1') = some (.cont { a with active_tab := 0 }) ∧
      App.step a (.char '2') = some (.cont { a with active_tab := 1 }) ∧
      App.step a (.char '3') = some (.cont { a with active_tab := 2 })) ∧
    (∀ (a : App) (cA cB : Char) (k : KeyCode),
      (cA = '1' ∨ cA = '2' ∨ cA = '3') → (cB = '1' ∨ cB = '2' ∨ cB = '3') →
      (k = KeyCode.down ∨ k = KeyCode.up) →
      (App.stepN a [.char cA, k, .char cB, .char cA]).map App.task_lists
        = (App.stepN a [.char cA, k]).map App.task_lists) := by
  constructor
  · exact fun a => ⟨rfl, rfl, rfl⟩
  · intro a cA cB k hA hB hk
    obtain ⟨tA, _, hstepA⟩ := step_select_char cA hA
    obtain ⟨tB, _, hstepB⟩ := step_select_char cB hB
    simp only [App.stepN, hstepA a]
    cases h2 : App.step { a with active_tab := tA } k with
    | none => simp only [App.stepN, h2]
    | some r =>
        cases r with
        | terminate => simp only [App.stepN, h2]
        | cont a2 =>
            simp only [App.stepN, h2, hstepB a2, hstepA { a2 with active_tab := tB }]
            rfl

/-- Witness for C3 (round-trip part), on the fresh workspace with tab keys
`'1'`, `'2'` and a Down navigation. -/
theorem select_tab_frame_roundtrip_witness :
    (App.stepN App.new [.char '1', .down, .char '2', .char '1']).map App.task_lists
      = (App.stepN App.new [.char '1', .down]).map App.task_lists :=
  select_tab_frame_roundtrip.2 App.new '1' '2' .down (Or.inl rfl) (Or.inr (Or.inl rfl))
    (Or.inl rfl)

/-- C8: every key event other than `'q'`, `'1'`, `'2'`, `'3'`, Enter, Down
and Up falls into the `_ => {}` arm and leaves the whole state unchanged; in
particular the key `'5'` (the closest thing to a SelectTab(5) request the
input surface can produce on this 3-tab workspace) leaves `active_tab`
unchanged. -/
theorem unmapped_keys_noop (a : App) :
    (∀ c : Char, c ≠ 'q' → c ≠ '1' → c ≠ '2' → c ≠ '3' →
      App.step a (.char c) = some (.cont a)) ∧
    App.step a .other = some (.cont a) ∧
    App.step a (.char '5') = some (.cont a) := by
  refine ⟨?_, rfl, rfl⟩
  intro c h1 h2 h3 h4
  simp only [App.step]
  rw [if_neg h1, if_neg h2, if_neg h3, if_neg h4]

/-- Witness for C8: the key `'5'` on the fresh workspace is a no-op. -/
theorem unmapped_keys_noop_witness :
    App.step App.new (.char '5') = some (.cont App.new) :=
  (unmapped_keys_noop App.new).1 '5' (by decide) (by decide) (by decide) (by decide)

/-- C9: ToggleDetails (Enter) is accepted even when the active tab has no
selected task: the Enter arm never inspects `selected`, so with
`selected = none` on the active tab it still flips that tab's
`details_visible` flag. -/
theorem toggle_details_without_selection (a : App) (l : StatefulList String) (b : Bool)
    (hl : a.task_lists[a.active_tab]? = some l) (hsel : l.selected = none)
    (hb : a.show_details[a.active_tab]? = some b) :
    App.step a .enter
      = some (.cont { a with show_details := a.show_details.set a.active_tab (!b) }) := by
  simp only [App.step, hb]

/-- Witness for C9: Enter on the fresh workspace, whose active tab 0 has
`selected = none` and `details_visible = false`. -/
theorem toggle_details_without_selection_witness :
    App.step App.new .enter
      = some (.cont { App.new with
          show_details := App.new.show_details.set App.new.active_tab (!false) }) :=
  toggle_details_without_selection App.new
    (StatefulList.new ["Finish project report", "Email manager"]) false rfl rfl rfl

/-- Helper: `next` succeeds on every list with non-empty items. -/
theorem next_isSome_of_ne_nil {α : Type} (l : StatefulList α) (h : l.items ≠ []) :
    ∃ l2, l.next = some l2 := by
  have h0 : ¬ l.items.length = 0 := fun h0 => h (List.length_eq_zero.mp h0)
  cases hs : l.selected with
  | none => exact ⟨{ l with selected := some 0 }, by simp only [StatefulList.next, hs]⟩
  | some i =>
      exact ⟨{ l with selected := some (if i ≥ l.items.length - 1 then 0 else i + 1) },
        by simp only [StatefulList.next, hs, if_neg h0]⟩

/-- Helper: `previous` succeeds on every list with non-empty items. -/
theorem previous_isSome_of_ne_nil {α : Type} (l : StatefulList α) (h : l.items ≠ []) :
    ∃ l2, l.previous = some l2 := by
  have h0 : ¬ l.items.length = 0 := fun h0 => h (List.length_eq_zero.mp h0)
  cases hs : l.selected with
  | none => exact ⟨{ l with selected := some 0 }, by simp only [StatefulList.previous, hs]⟩
  | some i =>
      by_cases hi : i = 0
      · exact ⟨{ l with selected := some (l.items.length - 1) },
          by simp only [StatefulList.previous, hs, if_pos hi, if_neg h0]⟩
      · exact ⟨{ l with selected := some (i - 1) },
          by simp only [StatefulList.previous, hs, if_neg hi]⟩

/-- C4: with every tab's item list non-empty and `active_tab` in range for
both per-tab vectors, no key dispatch panics: the subtraction
`items.len() - 1` never underflows and the indexing of `task_lists` and
`show_details` by `active_tab` is in bounds, so `App.step` is total. -/
theorem step_total_of_invariants (a : App) (k : KeyCode)
    (h1 : a.active_tab < a.task_lists.length)
    (h2 : a.active_tab < a.show_details.length)
    (h3 : ∀ l ∈ a.task_lists, l.items ≠ []) :
    (App.step a k).isSome = true := by
  cases k with
  | char c =>
      simp only [App.step]
      split_ifs <;> rfl
  | enter =>
      have hb := List.getElem?_eq_getElem h2
      simp only [App.step, hb, Option.isSome_some]
  | down =>
      have hl := List.getElem?_eq_getElem h1
      have hne := h3 _ (List.getElem_mem h1)
      obtain ⟨l2, hl2⟩ := next_isSome_of_ne_nil _ hne
      simp only [App.step, hl, hl2, Option.map_some', Option.isSome_some]
  | up =>
      have hl := List.getElem?_eq_getElem h1
      have hne := h3 _ (List.getElem_mem h1)
      obtain ⟨l2, hl2⟩ := previous_isSome_of_ne_nil _ hne
      simp only [App.step, hl, hl2, Option.map_some', Option.isSome_some]
  | other => rfl

/-- Witness for C4: a Down key on the fresh workspace succeeds. -/
theorem step_total_of_invariants_witness :
    (App.step App.new KeyCode.down).isSome = true :=
  step_total_of_invariants App.new .down (by decide) (by decide) (by decide)

/-- Helper: writing back the value a list already holds at `i` is the
identity. -/
theorem set_getElem?_self_eq {α : Type} :
    ∀ (l : List α) (i : Nat) (b : α), l[i]? = some b → l.set i b = l
  | [], _, _, h => by simp at h
  | x :: xs, 0, b, h => by
      simp only [List.getElem?_cons_zero, Option.some.injEq] at h
      simp [h]
  | x :: xs, i + 1, b, h => by
      simp only [List.getElem?_cons_succ] at h
      simp [List.set_cons_succ, set_getElem?_self_eq xs i b h]

/-- C5: one Enter flips `details_visible` on the active tab only — all other
tabs' flags, every tab's selection (`task_lists`), `active_tab` and `tabs`
are unchanged — and a second Enter restores `show_details` exactly
(toggling is an involution). -/
theorem toggle_details_involution (a : App) (b : Bool)
    (hb : a.show_details[a.active_tab]? = some b) :
    ∃ a2, App.step a .enter = some (.cont a2) ∧
      a2.tabs = a.tabs ∧ a2.active_tab = a.active_tab ∧ a2.task_lists = a.task_lists ∧
      a2.show_details[a.active_tab]? = some (!b) ∧
      (∀ j, j ≠ a.active_tab → a2.show_details[j]? = a.show_details[j]?) ∧
      ∃ a3, App.step a2 .enter = some (.cont a3) ∧ a3.show_details = a.show_details ∧
        a3.task_lists = a.task_lists ∧ a3.active_tab = a.active_tab ∧
        a3.tabs = a.tabs := by
  have hlt : a.active_tab < a.show_details.length := by
    rcases List.getElem?_eq_some_iff.mp hb with ⟨h, _⟩
    exact h
  refine ⟨{ a with show_details := a.show_details.set a.active_tab (!b) },
    by simp only [App.step, hb], rfl, rfl, rfl, List.getElem?_set_self hlt,
    fun j hj => List.getElem?_set_ne (Ne.symm hj),
    { a with show_details := (a.show_details.set a.active_tab (!b)).set a.active_tab (!(!b)) },
    by simp only [App.step, List.getElem?_set_self hlt], ?_, rfl, rfl, rfl⟩
  show (a.show_details.set a.active_tab (!b)).set a.active_tab (!(!b)) = a.show_details
  rw [List.set_set, Bool.not_not]
  exact set_getElem?_self_eq _ _ _ hb

/-- Witness for C5: Enter on the fresh workspace (active tab 0, flag
`false`), then Enter again. -/
theorem toggle_details_involution_witness :
    ∃ a2, App.step App.new .enter = some (.cont a2) ∧
      a2.tabs = App.new.tabs ∧ a2.active_tab = App.new.active_tab ∧
      a2.task_lists = App.new.task_lists ∧
      a2.show_details[App.new.active_tab]? = some (!false) ∧
      (∀ j, j ≠ App.new.active_tab → a2.show_details[j]? = App.new.show_details[j]?) ∧
      ∃ a3, App.step a2 .enter = some (.cont a3) ∧ a3.show_details = App.new.show_details ∧
        a3.task_lists = App.new.task_lists ∧ a3.active_tab = App.new.active_tab ∧
        a3.tabs = App.new.tabs :=
  toggle_details_involution App.new false rfl

/-- Helper: a continuing step keeps `tabs` unchanged, and either keeps
`active_tab` or sets it to one of the literals 0, 1, 2. -/
theorem step_cont_tabs_active (a a2 : App) (k : KeyCode)
    (h : App.step a k = some (.cont a2)) :
    a2.tabs = a.tabs ∧ (a2.active_tab = a.active_tab ∨ a2.active_tab < 3) := by
  cases k with
  | char c =>
      simp only [App.step] at h
      split_ifs at h with h1 h2 h3 h4
      · injection h with h5
        exact StepResult.noConfusion h5
      · injection h with h5
        injection h5 with h6
        subst h6
        exact ⟨rfl, Or.inr (show (0 : Nat) < 3 by decide)⟩
      · injection h with h5
        injection h5 with h6
        subst h6
        exact ⟨rfl, Or.inr (show (1 : Nat) < 3 by decide)⟩
      · injection h with h5
        injection h5 with h6
        subst h6
        exact ⟨rfl, Or.inr (show (2 : Nat) < 3 by decide)⟩
      · injection h with h5
        injection h5 with h6
        subst h6
        exact ⟨rfl, Or.inl rfl⟩
  | enter =>
      simp only [App.step] at h
      cases hg : a.show_details[a.active_tab]? with
      | none => rw [hg] at h; simp at h
      | some b =>
          rw [hg] at h
          simp only [Option.some.injEq, StepResult.cont.injEq] at h
          subst h
          exact ⟨rfl, Or.inl rfl⟩
  | down =>
      simp only [App.step] at h
      cases hg : a.task_lists[a.active_tab]? with
      | none => rw [hg] at h; simp at h
      | some l =>
          simp only [hg] at h
          cases hn : l.next with
          | none => rw [hn] at h; simp at h
          | some l2 =>
              rw [hn] at h
              simp only [Option.map_some', Option.some.injEq, StepResult.cont.injEq] at h
              subst h
              exact ⟨rfl, Or.inl rfl⟩
  | up =>
      simp only [App.step] at h
      cases hg : a.task_lists[a.active_tab]? with
      | none => rw [hg] at h; simp at h
      | some l =>
          simp only [hg] at h
          cases hn : l.previous with
          | none => rw [hn] at h; simp at h
          | some l2 =>
              rw [hn] at h
              simp only [Option.map_some', Option.some.injEq, StepResult.cont.injEq] at h
              subst h
              exact ⟨rfl, Or.inl rfl⟩
  | other =>
      simp only [App.step, Option.some.injEq, StepResult.cont.injEq] at h
      subst h
      exact ⟨rfl, Or.inl rfl⟩

/-- C7: `active_tab` always refers to a valid tab of the 3-tab workspace: it
holds in the initial state, every continuing step preserves it, and hence it
holds after any sequence of input events processed from the initial state. -/
theorem active_tab_always_valid :
    (App.new.active_tab < App.new.tabs.length ∧ App.new.tabs.length = 3) ∧
    (∀ (a a2 : App) (k : KeyCode),
      a.active_tab < a.tabs.length → a.tabs.length = 3 →
      App.step a k = some (.cont a2) →
      a2.active_tab < a2.tabs.length ∧ a2.tabs.length = 3) ∧
    (∀ (ks : List KeyCode) (a : App), App.stepN App.new ks = some a →
      a.active_tab < a.tabs.length ∧ a.tabs.length = 3) := by
  have pres : ∀ (a a2 : App) (k : KeyCode),
      a.active_tab < a.tabs.length → a.tabs.length = 3 →
      App.step a k = some (.cont a2) →
      a2.active_tab < a2.tabs.length ∧ a2.tabs.length = 3 := by
    intro a a2 k h1 h2 hstep
    obtain ⟨htabs, hact⟩ := step_cont_tabs_active a a2 k hstep
    refine ⟨?_, by rw [htabs]; exact h2⟩
    rcases hact with he | hl
    · rw [htabs, he]
      exact h1
    · rw [htabs, h2]
      exact hl
  have key : ∀ (ks : List KeyCode) (a0 : App),
      a0.active_tab < a0.tabs.length → a0.tabs.length = 3 →
      ∀ a, App.stepN a0 ks = some a →
        a.active_tab < a.tabs.length ∧ a.tabs.length = 3 := by
    intro ks
    induction ks with
    | nil =>
        intro a0 h1 h2 a ha
        simp only [App.stepN, Option.some.injEq] at ha
        rw [← ha]
        exact ⟨h1, h2⟩
    | cons k ks ih =>
        intro a0 h1 h2 a ha
        simp only [App.stepN] at ha
        cases hs : App.step a0 k with
        | none => rw [hs] at ha; simp at ha
        | some r =>
            cases r with
            | terminate => rw [hs] at ha; simp at ha
            | cont a1 =>
                rw [hs] at ha
                obtain ⟨h1x, h2x⟩ := pres a0 a1 k h1 h2 hs
                exact ih a1 h1x h2x a ha
  exact ⟨⟨by decide, rfl⟩, pres, fun ks a ha => key ks App.new (by decide) rfl a ha⟩

/-- Witness for C7 (preservation part): the key `'2'` from the fresh
workspace keeps `active_tab` valid. -/
theorem active_tab_always_valid_witness :
    ({ App.new with active_tab := 1 } : App).active_tab
        < ({ App.new with active_tab := 1 } : App).tabs.length ∧
      ({ App.new with active_tab := 1 } : App).tabs.length = 3 :=
  active_tab_always_valid.2.1 App.new { App.new with active_tab := 1 } (.char '2')
    (by decide) rfl rfl
